import Mathlib

/-!
Verification development for the grum-pedal guitar-to-drum trigger firmware.

The canonical onset/pitch/mapping pipeline is the combined Teensy sketch
(`src/unnamed/part_003`, second document: dual-envelope onset, spectral-flux
confirmation, string-continuity lock, clip/emergency guard).  Its per-block
`loop()` body, together with the helpers `updateEmergency`,
`computeSpectralFlux`, `canRetrigger` and `bandFor`, is embedded below as a
pure step function `loopStep` on an explicit state record.

Modelling conventions:
* C `float` values are embedded as exact rationals (`ℚ`).  All properties
  proved here are control-flow properties that hold for every rational value
  of the analogue signals, so exact-versus-rounded arithmetic is immaterial.
* `millis()` timestamps are embedded as `ℕ`.  The C code subtracts `uint32_t`
  timestamps; for a monotone millisecond clock (and horizons below the 49-day
  wraparound) `now - earlier` agrees with truncated `ℕ` subtraction, and the
  sketch's wraparound-tolerant lock test `(int32_t)(now - lockUntilMs) < 0`
  is exactly `now < lockUntilMs`.
* `int` counters are embedded as `ℤ`.
* `sqrtf` appears once, inside the spectral-flux gate
  `fluxRaw > max(fluxEMA + 3*sqrtf(var), FLUX_MIN_ABS)`; over `ℚ` the
  comparison against `3*sqrt var` is encoded by squaring, which is exact
  whenever `var ≥ 0` (an invariant of the flux-variance EMA, which starts at
  0 and is a convex combination of nonnegative terms).
-/

namespace GrumPedal

/-- YIN pitch-confidence floor (`YIN_CONF = 0.80f`). -/
def YIN_CONF : ℚ := 4/5

/-- Per-drum lockout in ms (`RETRIGGER_MS = 90`). -/
def RETRIGGER_MS : ℕ := 90

/-- Band hysteresis (`HYST_PCT = 0.06f`). -/
def HYST_PCT : ℚ := 3/50

/-- String-continuity lock duration in ms (`LOCK_MS = 150`). -/
def LOCK_MS : ℕ := 150

/-- Attack envelope coefficient (`FAST_ALPHA = 0.35f`). -/
def FAST_ALPHA : ℚ := 7/20

/-- Baseline envelope coefficient (`SLOW_ALPHA = 0.02f`). -/
def SLOW_ALPHA : ℚ := 1/50

/-- Onset ratio margin (`RATIO_DELTA = 0.06f`). -/
def RATIO_DELTA : ℚ := 3/50

/-- Onset absolute-delta floor (`MIN_DELTA = 0.00010f`). -/
def MIN_DELTA : ℚ := 1/10000

/-- Minimum inter-onset gap in ms (`ONSET_MIN_GAP_MS = 90`). -/
def ONSET_MIN_GAP_MS : ℕ := 90

/-- RMS floor below which a frame is quiet (`MIN_RMS_FOR_PITCH = 0.0006f`). -/
def MIN_RMS_FOR_PITCH : ℚ := 3/5000

/-- Flux-baseline EMA coefficient (`FLUX_ALPHA = 0.15f`). -/
def FLUX_ALPHA : ℚ := 3/20

/-- Flux threshold sigma multiplier (`FLUX_K = 3.0f`). -/
def FLUX_K : ℚ := 3

/-- Absolute flux confirmation floor (`FLUX_MIN_ABS = 0.02f`). -/
def FLUX_MIN_ABS : ℚ := 1/50

/-- Flux variance-proxy decay (`FLUX_DECAY = 0.90f`). -/
def FLUX_DECAY : ℚ := 9/10

/-- Peak clip level (`PEAK_CLIP_LEVEL = 0.98f`). -/
def PEAK_CLIP_LEVEL : ℚ := 49/50

/-- RMS clip level (`RMS_CLIP_LEVEL = 0.60f`). -/
def RMS_CLIP_LEVEL : ℚ := 3/5

/-- Blocks of clipping required to arm emergency (`CLIP_BLOCKS_ARM = 4`). -/
def CLIP_BLOCKS_ARM : ℤ := 4

/-- Emergency hold duration in ms (`EMERGENCY_HOLD_MS = 600`). -/
def EMERGENCY_HOLD_MS : ℕ := 600

/-- Reduced volume while emergency holds (`EMERGENCY_VOL = 0.20f`). -/
def EMERGENCY_VOL : ℚ := 1/5

/-- Default output volume (`VOL_DEFAULT = 0.80f`). -/
def VOL_DEFAULT : ℚ := 4/5

/-- One row of the EADGBE open-string band table
(`struct Band { float fmin, fmax; uint8_t idx; }`). -/
structure Band where
  fmin : ℚ
  fmax : ℚ
  idx : ℤ

/-- The `bands[]` table of the combined sketch: open-string frequency ranges
to drum indices (0 kick, 1 snare, 2 hat, 3 ride, 4 crash). -/
def bands : List Band :=
  [⟨74, 92, 0⟩,    -- E2 -> Kick
   ⟨100, 122, 1⟩,  -- A2 -> Snare
   ⟨135, 160, 2⟩,  -- D3 -> Hat
   ⟨185, 210, 2⟩,  -- G3 -> Hat
   ⟨235, 260, 3⟩,  -- B3 -> Ride
   ⟨315, 350, 4⟩]  -- E4 -> Crash

/-- `clamp01(x)`: `x < 0 ? 0 : (x > 1 ? 1 : x)`. -/
def clamp01 (x : ℚ) : ℚ := if x < 0 then 0 else if 1 < x then 1 else x

/-- `f >= bands[i].fmin*(1-HYST_PCT) && f <= bands[i].fmax*(1+HYST_PCT)`:
does frequency `f` fall inside band `bd` widened by the hysteresis margin? -/
def inBand (f : ℚ) (bd : Band) : Bool :=
  decide (bd.fmin * (1 - HYST_PCT) ≤ f) && decide (f ≤ bd.fmax * (1 + HYST_PCT))

/-- The scan loop of `bandFor`: try each band in order (first match wins),
`k` being the index of the first band of `l` in the full table. -/
def bandScan (f : ℚ) : ℕ → List Band → ℤ
  | _, [] => -1
  | k, bd :: rest => if inBand f bd then (k : ℤ) else bandScan f (k + 1) rest

/-- `int bandFor(float f)`: index of the first band whose widened range
contains `f`, or `-1`. -/
def bandFor (f : ℚ) : ℤ := bandScan f 0 bands

/-- The caller-side mapping `bandIdx >= 0 ? bands[bandIdx].idx : -1` from the
band-table row found by `bandFor` to a drum index. -/
def bandDrum (f : ℚ) : ℤ :=
  let bandIdx := bandFor f
  if 0 ≤ bandIdx then (bands.getD bandIdx.toNat ⟨0, 0, -1⟩).idx else -1

/-- `bool canRetrigger(uint8_t i)`: true (recording `now`) iff at least
`RETRIGGER_MS` elapsed since the voice's last recorded trigger.  Returns the
flag together with the updated `lastTrig` table. -/
def canRetrigger (lastTrig : ℕ → ℕ) (i : ℕ) (now : ℕ) : Bool × (ℕ → ℕ) :=
  if RETRIGGER_MS ≤ now - lastTrig i then (true, Function.update lastTrig i now)
  else (false, lastTrig)

/-- Process-wide mutable state of the combined sketch, one record field per
C global (plus the `static` locals of `loop()` and the codec volume). -/
structure LoopState where
  fastEnv : ℚ
  slowEnv : ℚ
  lastOnsetMs : ℕ
  lastTrig : ℕ → ℕ
  fluxEMA : ℚ
  fluxVarEMA : ℚ
  fluxInit : Bool
  prevSpec : Fin 128 → ℚ
  havePrevSpec : Bool
  clipBlocks : ℤ
  emergency : Bool
  emergencyStart : ℕ
  userVolume : ℚ
  volume : ℚ
  lockedDrum : ℤ
  lockUntilMs : ℕ

/-- The state after `setup()`: all envelopes/counters zero, no lock
(`lockedDrum = -1`), codec volume at `VOL_DEFAULT`. -/
def initState : LoopState where
  fastEnv := 0
  slowEnv := 0
  lastOnsetMs := 0
  lastTrig := fun _ => 0
  fluxEMA := 0
  fluxVarEMA := 0
  fluxInit := false
  prevSpec := fun _ => 0
  havePrevSpec := false
  clipBlocks := 0
  emergency := false
  emergencyStart := 0
  userVolume := VOL_DEFAULT
  volume := VOL_DEFAULT
  lockedDrum := -1
  lockUntilMs := 0

/-- Per-cycle readings the external audio framework hands to `loop()`. -/
structure BlockInput where
  now : ℕ
  haveRms : Bool
  rmsVal : ℚ
  peakVal : ℚ
  haveFft : Bool
  spec : Fin 128 → ℚ
  yinAvail : Bool
  yinFreq : ℚ
  yinProb : ℚ

/-- Observable results of one `loop()` pass: the intermediate onset signals,
the level/flux/pitch readings, the resolved drum (`b`, `-1` when the mapping
branch was not reached) and the fired trigger (drum, velocity, frequency). -/
structure LoopOutput where
  onsetDual : Bool
  onsetFlux : Bool
  onset : Bool
  ratio : ℚ
  flux : ℚ
  f : ℚ
  q : ℚ
  b : ℤ
  fired : Option (ℤ × ℚ × ℚ)

/-- The leaky clip-block counter update of `updateEmergency`: increment on a
clipping block, else decrement floored at 0. -/
def clipLeak (c : ℤ) (pRms pPeak : ℚ) : ℤ :=
  if PEAK_CLIP_LEVEL ≤ pPeak ∨ RMS_CLIP_LEVEL ≤ pRms then c + 1
  else if 0 < c then c - 1 else c

/-- `void updateEmergency(float pRms, float pPeak)`: leaky clip counting,
arming at `CLIP_BLOCKS_ARM` (recording the activation time and dropping the
codec volume), and disarming only once the counter is back to 0 and the hold
time has elapsed (restoring the user volume). -/
def updateEmergency (s : LoopState) (pRms pPeak : ℚ) (now : ℕ) : LoopState :=
  let s1 := { s with clipBlocks := clipLeak s.clipBlocks pRms pPeak }
  let s2 := if ¬s1.emergency ∧ CLIP_BLOCKS_ARM ≤ s1.clipBlocks then
      { s1 with emergency := true, emergencyStart := now, volume := EMERGENCY_VOL }
    else s1
  if s2.emergency ∧ EMERGENCY_HOLD_MS ≤ now - s2.emergencyStart ∧ s2.clipBlocks = 0 then
    { s2 with emergency := false, volume := s2.userVolume }
  else s2

/-- `float computeSpectralFlux()`: mean positive bin-wise change against the
stored previous spectrum; returns the flux and the overwritten
`prevSpec` buffer. -/
def computeSpectralFlux (spec prev : Fin 128 → ℚ) : ℚ × (Fin 128 → ℚ) :=
  ((∑ i : Fin 128, (if 0 < spec i - prev i then spec i - prev i else 0)) / 128, spec)

/-- The spectral-flux gate `fluxRaw > max(fluxEMA + FLUX_K*sqrtf(var),
FLUX_MIN_ABS)`.  The `sqrtf` comparison is encoded by squaring, exact for
`var ≥ 0`; `var ≥ 0` holds in every state reachable from `initState`. -/
def fluxGate (fluxRaw base var : ℚ) : Bool :=
  decide (FLUX_MIN_ABS < fluxRaw) && decide (0 ≤ var) &&
    decide (0 < fluxRaw - base) && decide (FLUX_K ^ 2 * var < (fluxRaw - base) ^ 2)

/-- Step 4 of `loop()`: compute the raw flux, update the flux baseline and
variance proxy (first frame just initialises them), and decide the
flux-onset confirmation.  Only run when `fft.available()`. -/
def fluxStep (s : LoopState) (spec : Fin 128 → ℚ) : LoopState × ℚ × Bool :=
  let r := computeSpectralFlux spec s.prevSpec
  let fluxRaw := r.1
  let s1 :=
    if !s.fluxInit then
      { s with prevSpec := r.2, fluxEMA := fluxRaw, fluxVarEMA := 0,
               fluxInit := true, havePrevSpec := true }
    else
      { s with prevSpec := r.2,
               fluxEMA := (1 - FLUX_ALPHA) * s.fluxEMA + FLUX_ALPHA * fluxRaw,
               fluxVarEMA := FLUX_DECAY * s.fluxVarEMA
                 + (1 - FLUX_DECAY) * (fluxRaw - s.fluxEMA) * (fluxRaw - s.fluxEMA) }
  (s1, fluxRaw, fluxGate fluxRaw s1.fluxEMA s1.fluxVarEMA)

/-- Step 6 of `loop()`: the pitch-gated mapping.  On a combined onset with a
valid (`f > 0`), confident (`q ≥ YIN_CONF`), non-hum (outside 56–64 Hz)
pitch, resolve the drum — from the continuity lock when it is active, from
the band table otherwise — and, when the per-voice debounce allows, fire the
trigger and set/refresh the lock.  Returns (state, resolved `b`, fired). -/
def mapStep (s : LoopState) (now : ℕ) (onset : Bool) (f q ratio flux : ℚ) :
    LoopState × ℤ × Option (ℤ × ℚ × ℚ) :=
  if onset && decide (0 < f) && decide (YIN_CONF ≤ q) then
    if !(decide (56 < f) && decide (f < 64)) then
      let b : ℤ :=
        if decide (now < s.lockUntilMs) && decide (0 ≤ s.lockedDrum) then s.lockedDrum
        else bandDrum f
      if decide (0 ≤ b) then
        let velFromRatio := clamp01 ((ratio - 1) * 6)
        let velFromFlux := clamp01 (flux * 8)
        let vel0 := clamp01 (13/20 * velFromRatio + 7/20 * velFromFlux)
        let vel := 3/20 + 17/20 * vel0
        let rt := canRetrigger s.lastTrig b.toNat now
        if rt.1 then
          ({ s with lastTrig := rt.2, lockedDrum := b, lockUntilMs := now + LOCK_MS },
           b, some (b, vel, f))
        else ({ s with lastTrig := rt.2 }, b, none)
      else (s, b, none)
    else (s, -1, none)
  else (s, -1, none)

/-- One pass of `loop()` of the combined sketch: analyzer reads, emergency
guard, dual-envelope update, primary onset, flux confirmation, combined
onset (recording `lastOnsetMs`), pitch read, and mapping/trigger. -/
def loopStep (s : LoopState) (inp : BlockInput) : LoopState × LoopOutput :=
  let pRms := if inp.haveRms then inp.rmsVal else 0
  let pPeak := inp.peakVal
  let s1 := updateEmergency s pRms pPeak inp.now
  let quietFrame := decide (pRms < MIN_RMS_FOR_PITCH)
  let s2 :=
    if inp.haveRms && !quietFrame then
      { s1 with fastEnv := (1 - FAST_ALPHA) * s1.fastEnv + FAST_ALPHA * pRms,
                slowEnv := (1 - SLOW_ALPHA) * s1.slowEnv + SLOW_ALPHA * pRms }
    else s1
  let ratio := if 1/1000000 < s2.slowEnv then s2.fastEnv / s2.slowEnv else 0
  let onsetDual := inp.haveRms && !quietFrame
    && decide (ONSET_MIN_GAP_MS < inp.now - s2.lastOnsetMs)
    && decide (1 + RATIO_DELTA < ratio)
    && decide (MIN_DELTA < s2.fastEnv - s2.slowEnv)
  let fr := if inp.haveFft then fluxStep s2 inp.spec else (s2, 0, false)
  let s3 := fr.1
  let flux := fr.2.1
  let onsetFlux := fr.2.2
  let onset := onsetDual && (onsetFlux || !inp.haveFft)
  let s4 := if onset then { s3 with lastOnsetMs := inp.now } else s3
  let f := if inp.yinAvail then inp.yinFreq else -1
  let q := if inp.yinAvail then inp.yinProb else 0
  let mr := mapStep s4 inp.now onset f q ratio flux
  (mr.1, ⟨onsetDual, onsetFlux, onset, ratio, flux, f, q, mr.2.1, mr.2.2⟩)

/-! ### Field-preservation lemmas for the sub-steps -/

@[simp] lemma updateEmergency_lastOnsetMs (s : LoopState) (pR pP : ℚ) (now : ℕ) :
    (updateEmergency s pR pP now).lastOnsetMs = s.lastOnsetMs := by
  unfold updateEmergency; dsimp only; split_ifs <;> rfl

@[simp] lemma updateEmergency_lastTrig (s : LoopState) (pR pP : ℚ) (now : ℕ) :
    (updateEmergency s pR pP now).lastTrig = s.lastTrig := by
  unfold updateEmergency; dsimp only; split_ifs <;> rfl

@[simp] lemma updateEmergency_lockedDrum (s : LoopState) (pR pP : ℚ) (now : ℕ) :
    (updateEmergency s pR pP now).lockedDrum = s.lockedDrum := by
  unfold updateEmergency; dsimp only; split_ifs <;> rfl

@[simp] lemma updateEmergency_lockUntilMs (s : LoopState) (pR pP : ℚ) (now : ℕ) :
    (updateEmergency s pR pP now).lockUntilMs = s.lockUntilMs := by
  unfold updateEmergency; dsimp only; split_ifs <;> rfl

@[simp] lemma updateEmergency_userVolume (s : LoopState) (pR pP : ℚ) (now : ℕ) :
    (updateEmergency s pR pP now).userVolume = s.userVolume := by
  unfold updateEmergency; dsimp only; split_ifs <;> rfl

@[simp] lemma fluxStep_lastOnsetMs (s : LoopState) (spec : Fin 128 → ℚ) :
    (fluxStep s spec).1.lastOnsetMs = s.lastOnsetMs := by
  unfold fluxStep; dsimp only; split_ifs <;> rfl

@[simp] lemma fluxStep_lastTrig (s : LoopState) (spec : Fin 128 → ℚ) :
    (fluxStep s spec).1.lastTrig = s.lastTrig := by
  unfold fluxStep; dsimp only; split_ifs <;> rfl

@[simp] lemma fluxStep_lockedDrum (s : LoopState) (spec : Fin 128 → ℚ) :
    (fluxStep s spec).1.lockedDrum = s.lockedDrum := by
  unfold fluxStep; dsimp only; split_ifs <;> rfl

@[simp] lemma fluxStep_lockUntilMs (s : LoopState) (spec : Fin 128 → ℚ) :
    (fluxStep s spec).1.lockUntilMs = s.lockUntilMs := by
  unfold fluxStep; dsimp only; split_ifs <;> rfl

lemma canRetrigger_fst (lt : ℕ → ℕ) (i now : ℕ) :
    (canRetrigger lt i now).1 = decide (RETRIGGER_MS ≤ now - lt i) := by
  unfold canRetrigger; split_ifs <;> simp_all

lemma canRetrigger_snd (lt : ℕ → ℕ) (i now : ℕ) :
    (canRetrigger lt i now).2 =
      if RETRIGGER_MS ≤ now - lt i then Function.update lt i now else lt := by
  unfold canRetrigger; split_ifs <;> rfl

lemma mapStep_lastOnsetMs (s : LoopState) (now : ℕ) (onset : Bool) (f q ratio flux : ℚ) :
    (mapStep s now onset f q ratio flux).1.lastOnsetMs = s.lastOnsetMs := by
  unfold mapStep; dsimp only; split_ifs <;> rfl

/-- If the mapping stage fires nothing, it leaves the state untouched
(the debounced-away branch only writes back the unchanged `lastTrig`). -/
lemma mapStep_none (s : LoopState) (now : ℕ) (onset : Bool) (f q ratio flux : ℚ)
    (h : (mapStep s now onset f q ratio flux).2.2 = none) :
    (mapStep s now onset f q ratio flux).1 = s := by
  unfold mapStep at *
  dsimp only at h ⊢
  split_ifs at h ⊢ <;>
    first
      | rfl
      | (simp_all [canRetrigger_fst, canRetrigger_snd]; try rw [if_neg (by omega)])

/-! ### C1: minimum inter-onset gap -/

/-- Timestamps of the accepted combined onsets along a run of `loop()`
passes from state `s` over the given block inputs. -/
def acceptedOnsets (s : LoopState) : List BlockInput → List ℕ
  | [] => []
  | x :: xs =>
    let r := loopStep s x
    if r.2.onset then x.now :: acceptedOnsets r.1 xs else acceptedOnsets r.1 xs

/-- An accepted combined onset passed the `now - lastOnsetMs > ONSET_MIN_GAP_MS`
test of the primary condition. -/
lemma loopStep_onset_gap (s : LoopState) (inp : BlockInput)
    (h : (loopStep s inp).2.onset = true) :
    s.lastOnsetMs + ONSET_MIN_GAP_MS < inp.now := by
  unfold loopStep at h
  dsimp only at h
  simp only [Bool.and_eq_true] at h
  obtain ⟨⟨⟨⟨hhr, hqt⟩, hgate⟩, hratio⟩, hdelta⟩ := h.1
  rw [decide_eq_true_eq] at hgate
  simp only [apply_ite LoopState.lastOnsetMs, updateEmergency_lastOnsetMs, ite_self] at hgate
  omega

/-- On an accepted onset, `lastOnsetMs` is advanced to `now`. -/
lemma loopStep_onset_sets_last (s : LoopState) (inp : BlockInput)
    (h : (loopStep s inp).2.onset = true) :
    (loopStep s inp).1.lastOnsetMs = inp.now := by
  unfold loopStep
  dsimp only
  unfold loopStep at h
  dsimp only at h
  rw [mapStep_lastOnsetMs]
  rw [h]
  simp

/-- Without an accepted onset, `lastOnsetMs` is left alone. -/
lemma loopStep_no_onset_keeps_last (s : LoopState) (inp : BlockInput)
    (h : (loopStep s inp).2.onset = false) :
    (loopStep s inp).1.lastOnsetMs = s.lastOnsetMs := by
  unfold loopStep
  dsimp only
  unfold loopStep at h
  dsimp only at h
  rw [mapStep_lastOnsetMs]
  rw [h]
  simp [apply_ite (fun r : LoopState × ℚ × Bool => r.1.lastOnsetMs),
    apply_ite LoopState.lastOnsetMs]

/-- Every onset accepted during a run lies strictly more than the gap after
the `lastOnsetMs` of the starting state. -/
lemma acceptedOnsets_lb (xs : List BlockInput) :
    ∀ s : LoopState, ∀ t ∈ acceptedOnsets s xs, s.lastOnsetMs + ONSET_MIN_GAP_MS < t := by
  induction xs with
  | nil => intro s t ht; simp [acceptedOnsets] at ht
  | cons x xs ih =>
    intro s t ht
    unfold acceptedOnsets at ht
    dsimp only at ht
    by_cases h : (loopStep s x).2.onset = true
    · rw [if_pos h] at ht
      rcases List.mem_cons.mp ht with rfl | ht'
      · exact loopStep_onset_gap s x h
      · have h1 := ih (loopStep s x).1 t ht'
        have h2 := loopStep_onset_sets_last s x h
        have h3 := loopStep_onset_gap s x h
        omega
    · rw [Bool.not_eq_true] at h
      rw [if_neg (by simp [h])] at ht
      have h1 := ih (loopStep s x).1 t ht
      have h2 := loopStep_no_onset_keeps_last s x h
      omega

/-- C1.  Along any run of processed blocks, the accepted onset timestamps are
pairwise separated by strictly more than `ONSET_MIN_GAP_MS` (90 ms): an onset
is only accepted when the elapsed time since `lastOnsetMs` exceeds the gap,
and `lastOnsetMs` is advanced to `now` on every acceptance. -/
theorem onset_min_gap_invariant (inputs : List BlockInput) (s : LoopState) :
    List.Pairwise (fun t1 t2 => t1 + ONSET_MIN_GAP_MS < t2) (acceptedOnsets s inputs) := by
  induction inputs generalizing s with
  | nil => simp [acceptedOnsets]
  | cons x xs ih =>
    unfold acceptedOnsets
    dsimp only
    by_cases h : (loopStep s x).2.onset = true
    · rw [if_pos h]
      refine List.pairwise_cons.mpr ⟨?_, ih (loopStep s x).1⟩
      intro t ht
      have h1 := acceptedOnsets_lb xs (loopStep s x).1 t ht
      have h2 := loopStep_onset_sets_last s x h
      omega
    · rw [Bool.not_eq_true] at h
      rw [if_neg (by simp [h])]
      exact ih (loopStep s x).1

/-! ### C2: combined onset decision -/

/-- C2.  On every processed block the combined onset equals the primary
dual-envelope onset AND-ed with the spectral-flux confirmation, the flux term
being vacuously true when no FFT data is available this cycle
(`onset = onsetDual && (onsetFlux || !haveFft)`, fail-open).  In particular
flux unavailability never suppresses a primary onset, and flux confirmation
without the primary condition never produces an onset. -/
theorem onset_flux_fail_open (s : LoopState) (inp : BlockInput) :
    (loopStep s inp).2.onset =
      ((loopStep s inp).2.onsetDual && ((loopStep s inp).2.onsetFlux || !inp.haveFft)) := rfl

/-! ### The fired-trigger path through `mapStep` -/

/-- Anatomy of an accepted trigger: the fired drum is the resolved `b`, the
continuity lock is set to it for `LOCK_MS`, the per-voice debounce was
satisfied and its table entry is advanced to `now`, the velocity is the
floored blend of envelope-ratio and flux components, and the reported
frequency is the pitch reading. -/
lemma mapStep_fired (s : LoopState) (now : ℕ) (onset : Bool) (f q ratio flux : ℚ)
    (w : ℤ) (vel fr2 : ℚ)
    (h : (mapStep s now onset f q ratio flux).2.2 = some (w, vel, fr2)) :
    (mapStep s now onset f q ratio flux).2.1 = w ∧
    (mapStep s now onset f q ratio flux).1.lockedDrum = w ∧
    (mapStep s now onset f q ratio flux).1.lockUntilMs = now + LOCK_MS ∧
    s.lastTrig w.toNat + RETRIGGER_MS ≤ now ∧
    (mapStep s now onset f q ratio flux).1.lastTrig =
      Function.update s.lastTrig w.toNat now ∧
    vel = 3/20 + 17/20 * clamp01 (13/20 * clamp01 ((ratio - 1) * 6)
      + 7/20 * clamp01 (flux * 8)) ∧
    fr2 = f := by
  unfold mapStep at h ⊢
  dsimp only at h ⊢
  split_ifs at h ⊢ <;> try exact Option.noConfusion h
  all_goals
    simp only [Option.some.injEq, Prod.mk.injEq] at h
    obtain ⟨hw, hv, hf2⟩ := h
    subst hw
    subst hv
    subst hf2
    rename_i hr
    rw [canRetrigger_fst, decide_eq_true_eq] at hr
    exact ⟨rfl, rfl, rfl, by simp only [RETRIGGER_MS] at hr ⊢; omega,
      by simp only [canRetrigger_snd, if_pos hr], rfl, rfl⟩

/-- A step that fires nothing leaves `lockedDrum`, `lockUntilMs` and the
whole retrigger table unchanged. -/
lemma mapStep_none_fields (s : LoopState) (now : ℕ) (onset : Bool) (f q ratio flux : ℚ)
    (h : (mapStep s now onset f q ratio flux).2.2 = none) :
    (mapStep s now onset f q ratio flux).1.lockedDrum = s.lockedDrum ∧
    (mapStep s now onset f q ratio flux).1.lockUntilMs = s.lockUntilMs ∧
    (mapStep s now onset f q ratio flux).1.lastTrig = s.lastTrig := by
  rw [mapStep_none s now onset f q ratio flux h]
  exact ⟨rfl, rfl, rfl⟩

/-- `loop()` hands the mapping stage a state whose lock and retrigger fields
are those of the incoming state (the earlier stages only touch envelopes,
flux statistics, the emergency guard and `lastOnsetMs`). -/
lemma loopStep_as_mapStep (s : LoopState) (inp : BlockInput) :
    ∃ s4 : LoopState,
      (loopStep s inp).1 = (mapStep s4 inp.now (loopStep s inp).2.onset
          (loopStep s inp).2.f (loopStep s inp).2.q (loopStep s inp).2.ratio
          (loopStep s inp).2.flux).1 ∧
      (loopStep s inp).2.b = (mapStep s4 inp.now (loopStep s inp).2.onset
          (loopStep s inp).2.f (loopStep s inp).2.q (loopStep s inp).2.ratio
          (loopStep s inp).2.flux).2.1 ∧
      (loopStep s inp).2.fired = (mapStep s4 inp.now (loopStep s inp).2.onset
          (loopStep s inp).2.f (loopStep s inp).2.q (loopStep s inp).2.ratio
          (loopStep s inp).2.flux).2.2 ∧
      s4.lastTrig = s.lastTrig ∧ s4.lockedDrum = s.lockedDrum ∧
      s4.lockUntilMs = s.lockUntilMs := by
  unfold loopStep
  dsimp only
  refine ⟨_, rfl, rfl, rfl, ?_, ?_, ?_⟩
  · simp [apply_ite LoopState.lastTrig,
      apply_ite (fun r : LoopState × ℚ × Bool => r.1.lastTrig)]
  · simp [apply_ite LoopState.lockedDrum,
      apply_ite (fun r : LoopState × ℚ × Bool => r.1.lockedDrum)]
  · simp [apply_ite LoopState.lockUntilMs,
      apply_ite (fun r : LoopState × ℚ × Bool => r.1.lockUntilMs)]

/-! ### C5: per-voice retrigger debounce -/

/-- Timestamps at which voice `v` fires along a run from state `s`. -/
def firedTimes (v : ℤ) (s : LoopState) : List BlockInput → List ℕ
  | [] => []
  | x :: xs =>
    let r := loopStep s x
    match r.2.fired with
    | some (w, _, _) =>
      if w = v then x.now :: firedTimes v r.1 xs else firedTimes v r.1 xs
    | none => firedTimes v r.1 xs

/-- A fire of voice `w` passed the `canRetrigger` test against the incoming
state and advanced that voice's `lastTrig` entry to `now`. -/
lemma loopStep_fired_trig (s : LoopState) (inp : BlockInput) (w : ℤ) (vel fr2 : ℚ)
    (h : (loopStep s inp).2.fired = some (w, vel, fr2)) :
    s.lastTrig w.toNat + RETRIGGER_MS ≤ inp.now ∧
    (loopStep s inp).1.lastTrig = Function.update s.lastTrig w.toNat inp.now := by
  obtain ⟨s4, h1, _, h3, h4, _, _⟩ := loopStep_as_mapStep s inp
  rw [h3] at h
  have := mapStep_fired s4 inp.now _ _ _ _ _ w vel fr2 h
  rw [h1, ← h4]
  exact ⟨h4 ▸ this.2.2.2.1, this.2.2.2.2.1⟩

/-- A step that fires nothing leaves the whole retrigger table unchanged. -/
lemma loopStep_no_fire_trig (s : LoopState) (inp : BlockInput)
    (h : (loopStep s inp).2.fired = none) :
    (loopStep s inp).1.lastTrig = s.lastTrig := by
  obtain ⟨s4, h1, _, h3, h4, _, _⟩ := loopStep_as_mapStep s inp
  rw [h3] at h
  rw [h1, mapStep_none _ _ _ _ _ _ _ h, h4]

/-- Every fire of voice `v` during a run happens at least the retrigger
interval after the voice's `lastTrig` entry in the starting state. -/
lemma firedTimes_lb (xs : List BlockInput) :
    ∀ s : LoopState, ∀ v : ℤ, ∀ t ∈ firedTimes v s xs,
      s.lastTrig v.toNat + RETRIGGER_MS ≤ t := by
  induction xs with
  | nil => intro s v t ht; simp [firedTimes] at ht
  | cons x xs ih =>
    intro s v t ht
    unfold firedTimes at ht
    dsimp only at ht
    rcases hf : (loopStep s x).2.fired with _ | ⟨w, vel, fr2⟩
    · rw [hf] at ht
      dsimp only at ht
      have h1 := ih (loopStep s x).1 v t ht
      rw [loopStep_no_fire_trig s x hf] at h1
      exact h1
    · rw [hf] at ht
      dsimp only at ht
      obtain ⟨hb, hupd⟩ := loopStep_fired_trig s x w vel fr2 hf
      by_cases hw : w = v
      · subst hw
        rw [if_pos rfl] at ht
        rcases List.mem_cons.mp ht with rfl | ht'
        · exact hb
        · have h1 := ih (loopStep s x).1 w t ht'
          rw [hupd, Function.update_same] at h1
          omega
      · rw [if_neg hw] at ht
        have h1 := ih (loopStep s x).1 v t ht
        rw [hupd] at h1
        by_cases hk : w.toNat = v.toNat
        · rw [hk, Function.update_same] at h1
          rw [hk] at hb
          omega
        · rw [Function.update_noteq (by omega)] at h1
          exact h1

/-- C5.  For every voice index, the fire timestamps along any run are
pairwise at least `RETRIGGER_MS` (90 ms) apart, independently of the global
onset gap: a fire requires `canRetrigger` to pass for that voice, which in
turn records the fire time in the per-voice table. -/
theorem voice_retrigger_debounce (inputs : List BlockInput) (s : LoopState) (v : ℤ) :
    List.Pairwise (fun t1 t2 => t1 + RETRIGGER_MS ≤ t2) (firedTimes v s inputs) := by
  induction inputs generalizing s with
  | nil => simp [firedTimes]
  | cons x xs ih =>
    unfold firedTimes
    dsimp only
    rcases hf : (loopStep s x).2.fired with _ | ⟨w, vel, fr2⟩
    · dsimp only
      exact ih (loopStep s x).1
    · dsimp only
      obtain ⟨hb, hupd⟩ := loopStep_fired_trig s x w vel fr2 hf
      by_cases hw : w = v
      · subst hw
        rw [if_pos rfl]
        refine List.pairwise_cons.mpr ⟨?_, ih (loopStep s x).1⟩
        intro t ht
        have h1 := firedTimes_lb xs (loopStep s x).1 w t ht
        rw [hupd, Function.update_same] at h1
        exact h1
      · rw [if_neg hw]
        exact ih (loopStep s x).1

/-! ### C4: clip/emergency guard -/

/-- C4.  The emergency guard: the clip counter is leaky (increment on a
clipping block, decrement floored at 0); from normal it arms exactly when
the updated counter reaches `CLIP_BLOCKS_ARM`; from emergency it disarms
exactly when the updated counter is 0 and the hold time since activation has
elapsed — in particular it never exits before the hold time — and disarming
restores the saved user volume. -/
theorem emergency_guard (s : LoopState) (pRms pPeak : ℚ) (now : ℕ) :
    ((updateEmergency s pRms pPeak now).clipBlocks = clipLeak s.clipBlocks pRms pPeak) ∧
    (s.emergency = false →
      ((updateEmergency s pRms pPeak now).emergency = true ↔
        CLIP_BLOCKS_ARM ≤ clipLeak s.clipBlocks pRms pPeak)) ∧
    (s.emergency = true →
      ((updateEmergency s pRms pPeak now).emergency = false ↔
        (clipLeak s.clipBlocks pRms pPeak = 0 ∧
          s.emergencyStart + EMERGENCY_HOLD_MS ≤ now))) ∧
    (s.emergency = true → now < s.emergencyStart + EMERGENCY_HOLD_MS →
      (updateEmergency s pRms pPeak now).emergency = true) ∧
    (s.emergency = true → (updateEmergency s pRms pPeak now).emergency = false →
      (updateEmergency s pRms pPeak now).volume = s.userVolume) := by
  unfold updateEmergency
  dsimp only
  simp only [CLIP_BLOCKS_ARM, EMERGENCY_HOLD_MS]
  split_ifs <;>
    refine ⟨rfl, ?_, ?_, ?_, ?_⟩ <;>
    (intros; simp_all) <;>
    omega

/-- Witness for C4: a concrete exit.  In emergency since time 0 with counter
1, a clean block (`pRms = pPeak = 0`) at `now = 600` drains the counter to 0
with the hold elapsed, so the guard disarms and restores the user volume. -/
def emergencyWitnessState : LoopState :=
  { initState with emergency := true, emergencyStart := 0, clipBlocks := 1,
                   userVolume := 4/5, volume := 1/5 }

theorem emergency_guard_witness :
    (updateEmergency emergencyWitnessState 0 0 600).emergency = false ∧
    (updateEmergency emergencyWitnessState 0 0 600).volume = 4/5 := by
  have h := emergency_guard emergencyWitnessState 0 0 600
  have hex : (updateEmergency emergencyWitnessState 0 0 600).emergency = false :=
    (h.2.2.1 rfl).mpr ⟨by norm_num [clipLeak, PEAK_CLIP_LEVEL, RMS_CLIP_LEVEL,
        emergencyWitnessState, initState],
      by norm_num [emergencyWitnessState, initState, EMERGENCY_HOLD_MS]⟩
  exact ⟨hex, h.2.2.2.2 rfl hex⟩

/-! ### C3: string-continuity voice lock -/

/-- Under the pitch gate, the resolved drum is the locked drum while the
lock is active, and the band-table resolution otherwise. -/
lemma mapStep_b (s : LoopState) (now : ℕ) (onset : Bool) (f q ratio flux : ℚ)
    (hg : (onset && decide (0 < f) && decide (YIN_CONF ≤ q)) = true)
    (hh : (decide (56 < f) && decide (f < 64)) = false) :
    (mapStep s now onset f q ratio flux).2.1 =
      if decide (now < s.lockUntilMs) && decide (0 ≤ s.lockedDrum) then s.lockedDrum
      else bandDrum f := by
  unfold mapStep
  dsimp only
  rw [if_pos hg, if_pos (by rw [hh]; rfl)]
  split_ifs <;> rfl

/-- Failing the pitch gate (no onset, invalid pitch, low confidence) or
landing in the hum band fires nothing and leaves the state untouched. -/
lemma mapStep_blocked (s : LoopState) (now : ℕ) (onset : Bool) (f q ratio flux : ℚ)
    (h : (onset && decide (0 < f) && decide (YIN_CONF ≤ q)) = false ∨
         (decide (56 < f) && decide (f < 64)) = true) :
    (mapStep s now onset f q ratio flux).2.2 = none ∧
    (mapStep s now onset f q ratio flux).1 = s := by
  unfold mapStep
  dsimp only
  rcases h with h | h
  · rw [if_neg (by simp [h])]
    exact ⟨rfl, rfl⟩
  · by_cases hg : (onset && decide (0 < f) && decide (YIN_CONF ≤ q)) = true
    · rw [if_pos hg, if_neg (by simp [h])]
      exact ⟨rfl, rfl⟩
    · rw [if_neg hg]
      exact ⟨rfl, rfl⟩

/-- C3.  String continuity: on an onset with a valid, confident, non-hum
pitch, an active lock (`now < lockUntilMs`, `lockedDrum ≥ 0`) resolves the
drum to the locked voice directly — whatever band the measured frequency is
in — while an inactive lock resolves from the band table; moreover the lock
is set/refreshed (to the fired voice, expiring at `now + LOCK_MS`) exactly
when a trigger is accepted past the per-voice debounce, and is left
untouched by a pass that fires nothing. -/
theorem voice_lock_continuity (s : LoopState) (inp : BlockInput)
    (ho : (loopStep s inp).2.onset = true)
    (hf : 0 < (loopStep s inp).2.f)
    (hq : YIN_CONF ≤ (loopStep s inp).2.q)
    (hhum : ¬(56 < (loopStep s inp).2.f ∧ (loopStep s inp).2.f < 64)) :
    (inp.now < s.lockUntilMs → 0 ≤ s.lockedDrum →
      (loopStep s inp).2.b = s.lockedDrum) ∧
    (¬(inp.now < s.lockUntilMs ∧ 0 ≤ s.lockedDrum) →
      (loopStep s inp).2.b = bandDrum (loopStep s inp).2.f) ∧
    ((loopStep s inp).2.fired = none →
      (loopStep s inp).1.lockedDrum = s.lockedDrum ∧
      (loopStep s inp).1.lockUntilMs = s.lockUntilMs) ∧
    (∀ w vel fr2, (loopStep s inp).2.fired = some (w, vel, fr2) →
      (loopStep s inp).1.lockedDrum = w ∧
      (loopStep s inp).1.lockUntilMs = inp.now + LOCK_MS ∧
      (loopStep s inp).2.b = w) := by
  obtain ⟨s4, h1, h2, h3, h4, h5, h6⟩ := loopStep_as_mapStep s inp
  have hg : ((loopStep s inp).2.onset && decide (0 < (loopStep s inp).2.f) &&
      decide (YIN_CONF ≤ (loopStep s inp).2.q)) = true := by
    simp [ho, hf, hq]
  have hh : (decide (56 < (loopStep s inp).2.f) &&
      decide ((loopStep s inp).2.f < 64)) = false := by
    rcases not_and_or.mp hhum with h | h <;> simp [h]
  have hb := mapStep_b s4 inp.now (loopStep s inp).2.onset (loopStep s inp).2.f
    (loopStep s inp).2.q (loopStep s inp).2.ratio (loopStep s inp).2.flux hg hh
  rw [h5, h6] at hb
  refine ⟨?_, ?_, ?_, ?_⟩
  · intro hla hld
    rw [h2, hb, if_pos (by simp [hla, hld])]
  · intro hnla
    rw [h2, hb, if_neg (by
      rcases not_and_or.mp hnla with h | h <;> simp [h])]
  · intro hnone
    rw [h3] at hnone
    have := mapStep_none_fields s4 inp.now _ _ _ _ _ hnone
    rw [h1]
    exact ⟨this.1.trans h5, this.2.1.trans h6⟩
  · intro w vel fr2 hsome
    rw [h3] at hsome
    have hm := mapStep_fired s4 inp.now _ _ _ _ _ w vel fr2 hsome
    rw [h1, h2]
    exact ⟨hm.2.1, hm.2.2.1, hm.1⟩

/-- Concrete lock scenario: lock on voice 3 until t = 2000, an onset at
t = 1000 reading 82 Hz (whose band is the kick, drum 0). -/
def lockWitnessState : LoopState :=
  { initState with fastEnv := 1/2, slowEnv := 1/10, lockedDrum := 3,
                   lockUntilMs := 2000 }

/-- Onset-qualifying block at t = 1000: RMS jump to 1/2, no FFT this cycle,
YIN reads 82 Hz at confidence 0.9. -/
def lockWitnessInput : BlockInput where
  now := 1000
  haveRms := true
  rmsVal := 1/2
  peakVal := 0
  haveFft := false
  spec := fun _ => 0
  yinAvail := true
  yinFreq := 82
  yinProb := 9/10

/-- Concrete evaluation of the lock-scenario pass: the onset is accepted, the
pitch reads 82 Hz at confidence 0.9, and the locked voice 3 fires (at
velocity 281/400) even though 82 Hz belongs to the kick band. -/
lemma lockWitness_eval :
    (loopStep lockWitnessState lockWitnessInput).2.onset = true ∧
    (loopStep lockWitnessState lockWitnessInput).2.f = 82 ∧
    (loopStep lockWitnessState lockWitnessInput).2.q = 9/10 ∧
    (loopStep lockWitnessState lockWitnessInput).2.fired = some (3, 281/400, 82) := by
  norm_num [loopStep, updateEmergency, clipLeak, mapStep, canRetrigger, bandDrum,
    bandFor, bandScan, inBand, clamp01, lockWitnessState, lockWitnessInput, initState,
    YIN_CONF, RETRIGGER_MS, HYST_PCT, LOCK_MS, FAST_ALPHA, SLOW_ALPHA, RATIO_DELTA,
    MIN_DELTA, ONSET_MIN_GAP_MS, MIN_RMS_FOR_PITCH, PEAK_CLIP_LEVEL, RMS_CLIP_LEVEL,
    CLIP_BLOCKS_ARM, EMERGENCY_HOLD_MS, EMERGENCY_VOL, VOL_DEFAULT]

lemma bandDrum_82 : bandDrum 82 = 0 := by
  norm_num [bandDrum, bandFor, bandScan, inBand, bands, HYST_PCT]

theorem voice_lock_witness :
    bandDrum 82 = 0 ∧
    (loopStep lockWitnessState lockWitnessInput).2.b = 3 ∧
    (loopStep lockWitnessState lockWitnessInput).1.lockedDrum = 3 ∧
    (loopStep lockWitnessState lockWitnessInput).1.lockUntilMs = 1150 := by
  have h := voice_lock_continuity lockWitnessState lockWitnessInput
    lockWitness_eval.1
    (by rw [lockWitness_eval.2.1]; norm_num)
    (by rw [lockWitness_eval.2.2.1]; norm_num [YIN_CONF])
    (by rw [lockWitness_eval.2.1]; norm_num)
  have hc := h.2.2.2 3 (281/400) 82 lockWitness_eval.2.2.2
  exact ⟨bandDrum_82, hc.2.2, hc.1, hc.2.1⟩

/-! ### C6: silently dropped onsets still consume the gap -/

/-- C6.  An accepted onset whose pitch is invalid (`f ≤ 0`), under-confident
(`q < YIN_CONF`), or inside the 56–64 Hz mains-hum band, produces no trigger
and leaves the voice lock and the per-voice retrigger table untouched, yet
still advances `lastOnsetMs` to `now` (the onset gap is consumed). -/
theorem dropped_onset_consumes_gap (s : LoopState) (inp : BlockInput)
    (ho : (loopStep s inp).2.onset = true)
    (hdrop : (loopStep s inp).2.f ≤ 0 ∨ (loopStep s inp).2.q < YIN_CONF ∨
      (56 < (loopStep s inp).2.f ∧ (loopStep s inp).2.f < 64)) :
    (loopStep s inp).2.fired = none ∧
    (loopStep s inp).1.lockedDrum = s.lockedDrum ∧
    (loopStep s inp).1.lockUntilMs = s.lockUntilMs ∧
    (loopStep s inp).1.lastTrig = s.lastTrig ∧
    (loopStep s inp).1.lastOnsetMs = inp.now := by
  obtain ⟨s4, h1, h2, h3, h4, h5, h6⟩ := loopStep_as_mapStep s inp
  have hblock : ((loopStep s inp).2.onset && decide (0 < (loopStep s inp).2.f) &&
        decide (YIN_CONF ≤ (loopStep s inp).2.q)) = false ∨
      (decide (56 < (loopStep s inp).2.f) && decide ((loopStep s inp).2.f < 64)) = true := by
    rcases hdrop with h | h | h
    · exact Or.inl (by simp [decide_eq_false (not_lt.mpr h)])
    · exact Or.inl (by simp [decide_eq_false (not_le.mpr h)])
    · exact Or.inr (by simp [h.1, h.2])
  have hm := mapStep_blocked s4 inp.now (loopStep s inp).2.onset (loopStep s inp).2.f
    (loopStep s inp).2.q (loopStep s inp).2.ratio (loopStep s inp).2.flux hblock
  refine ⟨by rw [h3]; exact hm.1, ?_, ?_, ?_, loopStep_onset_sets_last s inp ho⟩
  · rw [h1, hm.2, h5]
  · rw [h1, hm.2, h6]
  · rw [h1, hm.2, h4]

/-- Hum scenario: the same onset-qualifying block, but the pitch reading is
a steady 60 Hz at confidence 0.9 — inside the mains-hum rejection band. -/
def humWitnessState : LoopState :=
  { initState with fastEnv := 1/2, slowEnv := 1/10 }

def humWitnessInput : BlockInput where
  now := 1000
  haveRms := true
  rmsVal := 1/2
  peakVal := 0
  haveFft := false
  spec := fun _ => 0
  yinAvail := true
  yinFreq := 60
  yinProb := 9/10

/-- Concrete evaluation of the hum-scenario pass: the onset is accepted and
the pitch reads a confident 60 Hz. -/
lemma humWitness_eval :
    (loopStep humWitnessState humWitnessInput).2.onset = true ∧
    (loopStep humWitnessState humWitnessInput).2.f = 60 := by
  norm_num [loopStep, updateEmergency, clipLeak, mapStep, canRetrigger, bandDrum,
    bandFor, bandScan, inBand, clamp01, humWitnessState, humWitnessInput, initState,
    YIN_CONF, RETRIGGER_MS, HYST_PCT, LOCK_MS, FAST_ALPHA, SLOW_ALPHA, RATIO_DELTA,
    MIN_DELTA, ONSET_MIN_GAP_MS, MIN_RMS_FOR_PITCH, PEAK_CLIP_LEVEL, RMS_CLIP_LEVEL,
    CLIP_BLOCKS_ARM, EMERGENCY_HOLD_MS, EMERGENCY_VOL, VOL_DEFAULT]

theorem dropped_onset_witness :
    (loopStep humWitnessState humWitnessInput).2.onset = true ∧
    (loopStep humWitnessState humWitnessInput).2.fired = none ∧
    (loopStep humWitnessState humWitnessInput).1.lastOnsetMs = 1000 := by
  have h := dropped_onset_consumes_gap humWitnessState humWitnessInput
    humWitness_eval.1
    (Or.inr (Or.inr (by rw [humWitness_eval.2]; norm_num)))
  exact ⟨humWitness_eval.1, h.1, h.2.2.2.2⟩

/-! ### C7: velocity bounds -/

lemma clamp01_mem (x : ℚ) : 0 ≤ clamp01 x ∧ clamp01 x ≤ 1 := by
  unfold clamp01
  split_ifs <;> constructor <;> linarith

/-- C7.  Every fired trigger's velocity lies in `[0.15, 1]`: the component
signals are clamped to `[0,1]`, blended by the weighted sum
`0.65·velFromRatio + 0.35·velFromFlux` (weights summing to 1, re-clamped),
and remapped through the audible floor `0.15 + 0.85·vel`. -/
theorem velocity_bounds (s : LoopState) (inp : BlockInput) (w : ℤ) (vel fr2 : ℚ)
    (h : (loopStep s inp).2.fired = some (w, vel, fr2)) :
    3/20 ≤ vel ∧ vel ≤ 1 := by
  obtain ⟨s4, _, _, h3, _, _, _⟩ := loopStep_as_mapStep s inp
  rw [h3] at h
  have hv := (mapStep_fired s4 inp.now _ _ _ _ _ w vel fr2 h).2.2.2.2.2.1
  have hc := clamp01_mem (13/20 * clamp01 (((loopStep s inp).2.ratio - 1) * 6)
    + 7/20 * clamp01 ((loopStep s inp).2.flux * 8))
  constructor <;> rw [hv] <;> linarith [hc.1, hc.2]

theorem velocity_bounds_witness :
    (loopStep lockWitnessState lockWitnessInput).2.fired = some (3, 281/400, 82) ∧
    3/20 ≤ (281/400 : ℚ) ∧ (281/400 : ℚ) ≤ 1 :=
  ⟨lockWitness_eval.2.2.2,
    (velocity_bounds lockWitnessState lockWitnessInput 3 (281/400) 82
      lockWitness_eval.2.2.2).1,
    (velocity_bounds lockWitnessState lockWitnessInput 3 (281/400) 82
      lockWitness_eval.2.2.2).2⟩

/-! ### C8: band lookup with hysteresis -/

/-- Out-of-table default used only to express `bands[i]` accesses totally;
the C loop never reads out of bounds. -/
def noBand : Band := ⟨0, 0, -1⟩

/-- The scan loop either returns the offset of the first band whose widened
range holds `f` (all earlier bands failing), or `-1` with every band
failing. -/
lemma bandScan_cases (f : ℚ) : ∀ (l : List Band) (k : ℕ),
    (∃ n, n < l.length ∧ bandScan f k l = (k + n : ℤ) ∧
      inBand f (l.getD n noBand) = true ∧
      ∀ m < n, inBand f (l.getD m noBand) = false) ∨
    (bandScan f k l = -1 ∧ ∀ m < l.length, inBand f (l.getD m noBand) = false) := by
  intro l
  induction l with
  | nil => intro k; right; exact ⟨rfl, by simp⟩
  | cons bd rest ih =>
    intro k
    by_cases hb : inBand f bd = true
    · left
      refine ⟨0, by simp, ?_, by simpa using hb, fun m hm => absurd hm (Nat.not_lt_zero m)⟩
      simp [bandScan, hb]
    · have hb' : inBand f bd = false := by simpa using hb
      have hsc : bandScan f k (bd :: rest) = bandScan f (k + 1) rest := by
        simp [bandScan, hb']
      rcases ih (k + 1) with ⟨n, hn, hs, hin, hmin⟩ | ⟨hs, hall⟩
      · left
        refine ⟨n + 1, by simpa using hn, ?_, by simpa using hin, ?_⟩
        · rw [hsc, hs]; push_cast; ring
        · intro m hm
          match m with
          | 0 => simpa using hb'
          | m' + 1 => simpa using hmin m' (by omega)
      · right
        refine ⟨by rw [hsc, hs], ?_⟩
        intro m hm
        match m with
        | 0 => simpa using hb'
        | m' + 1 => simpa using hall m' (by simpa using hm)

/-- C8.  Band lookup: `bandFor f = n` (for an in-table `n`) exactly when `f`
lies in band `n`'s inclusive hysteresis-widened interval
`[fmin·(1-HYST_PCT), fmax·(1+HYST_PCT)]` and misses every earlier band
(first match wins); consequently each band's exact `fmax` maps to that band,
and any frequency strictly above `fmax·(1+HYST_PCT)` does not map to it. -/
theorem band_hysteresis_lookup :
    (∀ (f : ℚ) (n : ℕ), n < bands.length →
      (bandFor f = n ↔
        ((bands.getD n noBand).fmin * (1 - HYST_PCT) ≤ f ∧
         f ≤ (bands.getD n noBand).fmax * (1 + HYST_PCT) ∧
         ∀ m < n, inBand f (bands.getD m noBand) = false))) ∧
    (∀ n : ℕ, n < bands.length → bandFor ((bands.getD n noBand).fmax) = n) ∧
    (∀ (f : ℚ) (n : ℕ), n < bands.length →
      (bands.getD n noBand).fmax * (1 + HYST_PCT) < f → bandFor f ≠ n) := by
  have hchar : ∀ (f : ℚ) (n : ℕ), n < bands.length →
      (bandFor f = n ↔
        (inBand f (bands.getD n noBand) = true ∧
         ∀ m < n, inBand f (bands.getD m noBand) = false)) := by
    intro f n hn
    constructor
    · intro hfor
      rcases bandScan_cases f bands 0 with ⟨n', hn', hs, hin, hmin⟩ | ⟨hs, hall⟩
      · have : n' = n := by
          rw [bandFor] at hfor
          rw [hs] at hfor
          omega
        subst this
        exact ⟨hin, hmin⟩
      · rw [bandFor] at hfor
        rw [hs] at hfor
        omega
    · rintro ⟨hin, hmin⟩
      rcases bandScan_cases f bands 0 with ⟨n', hn', hs, hin', hmin'⟩ | ⟨hs, hall⟩
      · have : n' = n := by
          rcases Nat.lt_trichotomy n' n with h | h | h
          · exact absurd hin' (by rw [hmin n' h]; simp)
          · exact h
          · exact absurd hin (by rw [hmin' n h]; simp)
        subst this
        rw [bandFor, hs]
        push_cast
        ring
      · exact absurd hin (by rw [hall n hn]; simp)
  refine ⟨?_, ?_, ?_⟩
  · intro f n hn
    rw [hchar f n hn]
    unfold inBand
    rw [Bool.and_eq_true, decide_eq_true_eq, decide_eq_true_eq]
    tauto
  · intro n hn
    have h6 : n < 6 := by simpa [bands] using hn
    interval_cases n <;>
      norm_num [bandFor, bandScan, inBand, bands, noBand, HYST_PCT]
  · intro f n hn habove hfor
    have h := ((hchar f n hn).mp hfor).1
    unfold inBand at h
    rw [Bool.and_eq_true, decide_eq_true_eq, decide_eq_true_eq] at h
    linarith [h.2]

theorem band_hysteresis_witness :
    bandFor 92 = 0 ∧ bandFor 98 ≠ 0 :=
  ⟨band_hysteresis_lookup.2.1 0 (by norm_num [bands]),
   band_hysteresis_lookup.2.2 98 0 (by norm_num [bands])
     (by norm_num [bands, noBand, HYST_PCT])⟩

end GrumPedal

/-!
### C9: the YIN detector of `src/YIN Algo with Attack Detection/trigger-yin.cpp`

`GuitarTrigger::detectPitch` is embedded over exact rationals.  The single
place where C float semantics matters is step 2's cumulative-mean
normalization `yinBuffer[tau] *= tau / runningSum`: when `runningSum` is `0`
every earlier difference is `0` (they are sums of squares), so the C code
computes `0 * (tau / 0.0f) = 0 * inf = NaN`.  We model the normalized buffer
as `Option ℚ` with `none` standing for that NaN; every IEEE comparison
against a NaN is false, which is the `ltNaN` below.  A NaN can never reach
the interpolation step (a lag is only chosen when its value compares below
the threshold, which a NaN never does, and later lags have strictly larger
`runningSum`), but the embedding still propagates `none` there for
faithfulness.
-/

namespace YinTrigger

/-- `YIN_BUFFER_SIZE = 512`. -/
def YIN_BUFFER_SIZE : ℕ := 512

/-- `SAMPLE_RATE = 44100`. -/
def SAMPLE_RATE : ℚ := 44100

/-- Step 1: the difference function
`yinBuffer[tau] = Σ_{i<512} (buffer[i] - buffer[i+tau])²`. -/
def yinDiff (buf : ℕ → ℚ) (tau : ℕ) : ℚ :=
  ∑ i ∈ Finset.range YIN_BUFFER_SIZE, (buf i - buf (i + tau)) ^ 2

/-- The running sum `Σ_{t=1..tau} yinBuffer[t]` of step 2 (it already
includes the current lag when the normalization of that lag happens). -/
def yinRunningSum (buf : ℕ → ℚ) (tau : ℕ) : ℚ :=
  ∑ t ∈ Finset.Icc 1 tau, yinDiff buf t

/-- Step 2: the cumulative-mean-normalized difference,
`yinBuffer[0] = 1`, `yinBuffer[tau] *= tau / runningSum`.  `none` models the
NaN the C code produces when `runningSum = 0`. -/
def yinCMND (buf : ℕ → ℚ) (tau : ℕ) : Option ℚ :=
  if tau = 0 then some 1
  else if yinRunningSum buf tau = 0 then none
  else some (yinDiff buf tau * tau / yinRunningSum buf tau)

/-- IEEE `<` on possibly-NaN values: any comparison involving NaN is false. -/
def ltNaN : Option ℚ → Option ℚ → Bool
  | some a, some b => decide (a < b)
  | _, _ => false

/-- `float threshold = 0.15`. -/
def yinThreshold : ℚ := 3/20

/-- Step 3, first phase: the first lag in `2 ≤ i < 512` whose normalized
difference drops below the threshold. -/
def yinFind (buf : ℕ → ℚ) : Option ℕ :=
  (List.range' 2 510).find? fun i => ltNaN (yinCMND buf i) (some yinThreshold)

/-- Step 3, second phase: `while (i+1 < 512 && yinBuffer[i+1] < yinBuffer[i])
i++` — walk forward while the function keeps decreasing.  The index grows by
one per step and stays below 512, so fuel 512 never runs out. -/
def yinWalk (buf : ℕ → ℚ) : ℕ → ℕ → ℕ
  | 0, i => i
  | fuel + 1, i =>
    if i + 1 < YIN_BUFFER_SIZE && ltNaN (yinCMND buf (i + 1)) (yinCMND buf i) then
      yinWalk buf fuel (i + 1)
    else i

/-- The chosen lag (`tau`), `none` when no lag met the threshold. -/
def yinTau (buf : ℕ → ℚ) : Option ℕ :=
  (yinFind buf).map (yinWalk buf YIN_BUFFER_SIZE)

/-- `float GuitarTrigger::detectPitch(float*, int)`: steps 1–4.  Returns
`some (-1)` for the no-pitch sentinel; a `none` result models a NaN
frequency (unreachable, see the section comment). -/
def detectPitch (buf : ℕ → ℚ) : Option ℚ :=
  match yinTau buf with
  | none => some (-1)
  | some tau =>
    if tau = YIN_BUFFER_SIZE - 1 then some (-1)
    else if 0 < tau ∧ tau < YIN_BUFFER_SIZE - 1 then
      match yinCMND buf (tau - 1), yinCMND buf tau, yinCMND buf (tau + 1) with
      | some x0, some x1, some x2 =>
        let a := (x2 - 2 * x1 + x0) / 2
        let b := (x2 - x0) / 2
        let betterTau : ℚ := if a ≠ 0 then (tau : ℚ) - b / (2 * a) else (tau : ℚ)
        some (SAMPLE_RATE / betterTau)
      | _, _, _ => none
    else some (SAMPLE_RATE / (tau : ℚ))

/-- C9.  Whenever no candidate lag's normalized difference falls below the
YIN threshold (NaN comparisons counting as false), or the chosen lag is the
last lag 511 (no interpolation possible), `detectPitch` returns the `-1`
sentinel — never a garbage value. -/
theorem yin_no_pitch_sentinel (buf : ℕ → ℚ)
    (h : (∀ i, 2 ≤ i → i < YIN_BUFFER_SIZE →
            ltNaN (yinCMND buf i) (some yinThreshold) = false) ∨
         yinTau buf = some (YIN_BUFFER_SIZE - 1)) :
    detectPitch buf = some (-1) := by
  rcases h with h | h
  · have hfind : yinFind buf = none := by
      rw [yinFind]
      apply List.find?_eq_none.mpr
      intro i hi
      have hm := List.mem_range'_1.mp hi
      simp [h i hm.1 (by have := hm.2; simpa [YIN_BUFFER_SIZE] using this)]
    have htau : yinTau buf = none := by rw [yinTau, hfind]; rfl
    rw [detectPitch, htau]
  · rw [detectPitch, h]
    simp

/-- On the all-zero window every difference is zero, so for every positive
lag the running sum is zero and the normalized value is the NaN `none`. -/
lemma yinCMND_zero_window (tau : ℕ) (h : 1 ≤ tau) :
    yinCMND (fun _ => 0) tau = none := by
  have hz : yinRunningSum (fun _ => 0) tau = 0 := by
    simp [yinRunningSum, yinDiff]
  rw [yinCMND, if_neg (by omega), if_pos hz]

/-- Witness for C9: the all-zero (silent) window, where the normalization
denominator is zero, still yields the `-1` sentinel rather than a NaN/Inf
garbage value. -/
theorem yin_zero_window_witness : detectPitch (fun _ => 0) = some (-1) :=
  yin_no_pitch_sentinel _ (Or.inl fun i h2 _ => by
    rw [yinCMND_zero_window i (by omega)]
    rfl)

end YinTrigger

/-!
### C10: `getFrequencyBand` of the hybrid sketch (`src/unnamed/part_005`)

The band scan biases toward the previous note's band by calling
`getFrequencyBand(lastFrequency)` from inside its own loop whenever
`abs(freq - lastFrequency) < 20`.  That nested call runs with
`freq = lastFrequency`, for which the bias condition is `0 < 20` — true
again — so it recurses without bound.  The embedding makes the recursion
depth explicit with a fuel parameter: `none` means the fuel ran out, and a
result of `none` for *every* fuel is genuine non-termination.  The recursive
call is passed lazily (a thunk), exactly like the short-circuit `&&` in C:
when the bias condition is false it is never evaluated and the function
returns in one step. -/

namespace HybridTrigger

/-- `const float HYSTERESIS = 0.05` (5% overlap between bands). -/
def HYSTERESIS : ℚ := 1/20

/-- `struct FreqBand { float minFreq; float maxFreq; int drumIndex;
const char* name; }` (the display name carries no logic and is omitted). -/
structure FreqBand where
  minFreq : ℚ
  maxFreq : ℚ
  drumIndex : ℤ

/-- The `frequencyBands[]` table of the hybrid sketch, with loop indices. -/
def indexedBands : List (ℤ × FreqBand) :=
  [(0, ⟨50, 95, 0⟩),    -- KICK
   (1, ⟨96, 140, 1⟩),   -- SNARE
   (2, ⟨141, 220, 2⟩),  -- HAT
   (3, ⟨221, 350, 3⟩),  -- RIDE
   (4, ⟨351, 800, 4⟩)]  -- CRASH

/-- The `for (i = 0; i < 5; i++)` body of `getFrequencyBand`: widen band `i`
by the hysteresis, additionally expand it when the string-continuity bias
applies and the recursive lookup of `lastFrequency` (passed as a thunk,
`none` = the nested call never returned) chose this same band, and return
the first band containing `freq` (`some (-1)` when none does). -/
def bandLoop (freq lastF : ℚ) (rec : Unit → Option ℤ) :
    List (ℤ × FreqBand) → Option ℤ
  | [] => some (-1)
  | (i, bd) :: rest =>
    let minF := bd.minFreq * (1 - HYSTERESIS)
    let maxF := bd.maxFreq * (1 + HYSTERESIS)
    if |freq - lastF| < 20 then
      match rec () with
      | none => none
      | some r =>
        let minF2 := if r = i then minF * (9/10) else minF
        let maxF2 := if r = i then maxF * (11/10) else maxF
        if minF2 ≤ freq ∧ freq ≤ maxF2 then some i else bandLoop freq lastF rec rest
    else
      if minF ≤ freq ∧ freq ≤ maxF then some i else bandLoop freq lastF rec rest

/-- `int getFrequencyBand(float freq)` with the persisted `lastFrequency`
global made explicit and a fuel bound on the recursion depth (`none` = the
call did not return within `fuel` nested calls). -/
def getFrequencyBand : ℕ → ℚ → ℚ → Option ℤ
  | 0, _, _ => none
  | fuel + 1, freq, lastF =>
    bandLoop freq lastF (fun _ => getFrequencyBand fuel lastF lastF) indexedBands

/-- Whenever the string-continuity bias applies (`|freq - lastFrequency| <
20`), the nested `getFrequencyBand(lastFrequency)` call faces the bias
condition `|lastFrequency - lastFrequency| = 0 < 20` again, so no recursion
depth suffices: the C code overflows the stack. -/
lemma getFrequencyBand_bias_none :
    ∀ (fuel : ℕ) (freq lastF : ℚ), |freq - lastF| < 20 →
      getFrequencyBand fuel freq lastF = none := by
  intro fuel
  induction fuel with
  | zero => intro freq lastF h; rfl
  | succ n ih =>
    intro freq lastF h
    have hrec : getFrequencyBand n lastF lastF = none := ih lastF lastF (by norm_num)
    show bandLoop freq lastF (fun _ => getFrequencyBand n lastF lastF) indexedBands = none
    simp only [indexedBands, bandLoop, if_pos h, hrec]

/-- C10 (failing-input evaluation).  At `freq = lastFrequency = 100` — any
pair within 20 Hz behaves the same — `getFrequencyBand` exhausts every
recursion depth: the band lookup never terminates, contradicting the claim
that it returns for every input with bounded recursion depth. -/
theorem getFrequencyBand_diverges (fuel : ℕ) :
    getFrequencyBand fuel 100 100 = none :=
  getFrequencyBand_bias_none fuel 100 100 (by norm_num)

end HybridTrigger
